import Mathlib

/-!
Shallow embedding of the claim-reference-validator backend.

Part 1 models the CRUD endpoint module
`src/backend/app/api/v1/endpoints/claims.py.bak` over an explicit store:
the database session becomes a `Store` value, each endpoint handler a
function `... → Except ApiError Store`, and a raised `HTTPException`
becomes an `ApiError` value.  Part 2 (further below) models the
extraction core (SchemaValidator, ReferenceIdentityResolver,
ExtractionPipeline); that code is not part of this checkout, so those
definitions are modelled from the specification text.
-/

namespace CRV

/-- The five claim types enumerated by the data model. -/
inductive ClaimType
  | factual
  | statistical
  | methodological
  | opinion
  | conclusion
deriving DecidableEq

/-- A persisted `Claim` row (`app.models.claim.Claim`): id, owning
project, text, type, optional position fields, and a creation stamp used
by the `order_by created_at desc` in `list_claims`.  Ids are handed out
by a monotone counter, so `created_at` is modelled by the row id. -/
structure Claim where
  id : Int
  project_id : Int
  text : String
  claim_type : ClaimType
  page_number : Option Int
  paragraph_index : Option Int
  created_at : Int
deriving DecidableEq

/-- A persisted `Reference` row (`app.models.reference.Reference`). -/
structure Reference where
  id : Int
  title : String
  authors : Option String
  year : Option Int
  source : Option String
  doi : Option String
  url : Option String
deriving DecidableEq

/-- A persisted `ClaimReference` link row
(`app.models.claim_reference.ClaimReference`): claim id, reference id,
optional relevance score (a float in the code, modelled as a rational)
and optional context string. -/
structure ClaimReference where
  claim_id : Int
  reference_id : Int
  relevance_score : Option ℚ
  context : Option String
deriving DecidableEq

/-- The database state seen by the endpoints: project ids, the three
tables, and the id counters the engine uses for new rows. -/
structure Store where
  projects : List Int
  claims : List Claim
  references : List Reference
  links : List ClaimReference
  nextClaimId : Int
  nextRefId : Int
deriving DecidableEq

/-- Errors surfaced by the endpoint handlers: `HTTPException(404, msg)`,
the FastAPI query-parameter validation failure (HTTP 422), and
the `MultipleResultsFound` error raised by `scalar_one_or_none`. -/
inductive ApiError
  | notFound (msg : String)
  | validationError
  | multipleResults
deriving DecidableEq

/-- SQLAlchemy `Result.scalar_one_or_none`: none for zero rows, the row
for exactly one, and `MultipleResultsFound` for two or more. -/
def scalarOneOrNone {α : Type} : List α → Except ApiError (Option α)
  | [] => .ok none
  | [x] => .ok (some x)
  | _ :: _ :: _ => .error .multipleResults

/-- The row predicate used by both link endpoints:
`ClaimReference.claim_id == claim_id, ClaimReference.reference_id == reference_id`. -/
def linkPred (cid rid : Int) (l : ClaimReference) : Bool :=
  l.claim_id == cid && l.reference_id == rid

/-- Request body of `POST /claims/` (`app.schemas.claim.ClaimCreate`). -/
structure ClaimCreate where
  project_id : Int
  text : String
  claim_type : ClaimType
  page_number : Option Int
  paragraph_index : Option Int
  reference_ids : List Int
deriving DecidableEq

/-- The `Claim` row built by `create_claim` from its payload. -/
def newClaimRow (cid : Int) (p : ClaimCreate) : Claim :=
  ⟨cid, p.project_id, p.text, p.claim_type, p.page_number, p.paragraph_index, cid⟩

/-- `create_claim` (claims.py.bak lines 75-114): verify the project
exists, then — only when `payload.reference_ids` is truthy, i.e.
non-empty — compare the number of distinct stored references whose id is
in the list against the length of the list, and 404 on mismatch; only
then add the claim row and one link row per listed reference id and
commit.  Both error paths fire before anything is added, so an error
leaves the store unchanged. -/
def create_claim (p : ClaimCreate) (s : Store) : Except ApiError Store :=
  if p.project_id ∉ s.projects then
    .error (.notFound ("Project not found"))
  else if p.reference_ids ≠ [] ∧
      (s.references.filter (fun r => decide (r.id ∈ p.reference_ids))).length ≠
        p.reference_ids.length then
    .error (.notFound ("One or more references not found"))
  else
    .ok { s with
      claims := s.claims ++ [newClaimRow s.nextClaimId p],
      links := s.links ++
        p.reference_ids.map (fun rid => ⟨s.nextClaimId, rid, none, none⟩),
      nextClaimId := s.nextClaimId + 1 }

/-- Request body of `PUT /claims/{id}`.  The schema module
`app.schemas.claim` is not part of this checkout.  Modelled from the
spec: "mutable via update (text/type/position)" — the update payload
carries only `text`, `claim_type`, `page_number` and `paragraph_index`,
each optional; an outer `none` means the field was not set in the
request (`model_dump(exclude_unset=True)` skips it). -/
structure ClaimUpdate where
  text : Option String
  claim_type : Option ClaimType
  page_number : Option (Option Int)
  paragraph_index : Option (Option Int)
deriving DecidableEq

/-- The `setattr` loop of `update_claim` applied to one row: every field
present in the payload overwrites the field of the row. -/
def applyUpdate (u : ClaimUpdate) (c : Claim) : Claim :=
  { c with
    text := u.text.getD c.text,
    claim_type := u.claim_type.getD c.claim_type,
    page_number := u.page_number.getD c.page_number,
    paragraph_index := u.paragraph_index.getD c.paragraph_index }

/-- `update_claim` (claims.py.bak lines 139-165): 404 when the claim id
is absent, otherwise apply the payload's set fields to that row. -/
def update_claim (cid : Int) (u : ClaimUpdate) (s : Store) :
    Except ApiError Store :=
  match s.claims.find? (fun c => c.id == cid) with
  | none => .error (.notFound ("Claim not found"))
  | some _ =>
      .ok { s with
        claims := s.claims.map (fun c => if c.id == cid then applyUpdate u c else c) }

/-- The FastAPI parameter declaration
`relevance_score: float | None = Query(None, ge=0, le=1)`: a present
value below 0 or above 1 is rejected by validation before the handler
body runs. -/
def scoreOutOfRange : Option ℚ → Bool
  | none => false
  | some q => decide (q < 0) || decide (1 < q)

/-- Field update performed on an existing link row by
`link_claim_to_reference`: each of `relevance_score` and `context` is
overwritten only when the query parameter is not `None`. -/
def updateLink (score : Option ℚ) (ctx : Option String) (l : ClaimReference) :
    ClaimReference :=
  { l with
    relevance_score := match score with | some q => some q | none => l.relevance_score,
    context := match ctx with | some c => some c | none => l.context }

/-- The in-place mutation of the one existing row, seen at table level:
every row matching the pair is updated (the handler guarantees there is
exactly one), the rest are untouched. -/
def applyLinkUpdate (cid rid : Int) (score : Option ℚ) (ctx : Option String)
    (links : List ClaimReference) : List ClaimReference :=
  links.map (fun l => if linkPred cid rid l then updateLink score ctx l else l)

/-- `link_claim_to_reference` (claims.py.bak lines 180-234): after query
validation of `relevance_score`, 404 when the claim or the reference is
absent; then `scalar_one_or_none` over the rows matching the pair — an
existing row is updated in place, otherwise a fresh row is added. -/
def link_claim_to_reference (cid rid : Int) (score : Option ℚ)
    (ctx : Option String) (s : Store) : Except ApiError Store :=
  if scoreOutOfRange score then .error .validationError
  else if (s.claims.find? (fun c => c.id == cid)).isNone then
    .error (.notFound ("Claim not found"))
  else if (s.references.find? (fun r => r.id == rid)).isNone then
    .error (.notFound ("Reference not found"))
  else
    match scalarOneOrNone (s.links.filter (linkPred cid rid)) with
    | .error e => .error e
    | .ok (some _) =>
        .ok { s with links := applyLinkUpdate cid rid score ctx s.links }
    | .ok none =>
        .ok { s with links := s.links ++ [⟨cid, rid, score, ctx⟩] }

/-- `unlink_claim_from_reference` (claims.py.bak lines 237-257):
`scalar_one_or_none` over the rows matching the pair; 404 when none,
otherwise delete that row. -/
def unlink_claim_from_reference (cid rid : Int) (s : Store) :
    Except ApiError Store :=
  match scalarOneOrNone (s.links.filter (linkPred cid rid)) with
  | .error e => .error e
  | .ok none => .error (.notFound ("Link not found"))
  | .ok (some _) => .ok { s with links := s.links.eraseP (linkPred cid rid) }

/-- Insertion step of the `order_by(Claim.created_at.desc())` sort used
by `list_claims`: newest first. -/
def insertDesc (c : Claim) : List Claim → List Claim
  | [] => [c]
  | d :: ds => if d.created_at ≤ c.created_at then c :: d :: ds else d :: insertDesc c ds

/-- Sort claims by `created_at` descending (insertion sort). -/
def sortByCreatedDesc : List Claim → List Claim
  | [] => []
  | c :: cs => insertDesc c (sortByCreatedDesc cs)

/-- `list_claims` (claims.py.bak lines 20-47), returning the page of
rows: the `project_id` filter is applied only when the parameter is
truthy (`if project_id:`), i.e. present and non-zero; then order by
`created_at` descending, skip `(page-1)*page_size` rows and take
`page_size`. -/
def list_claims (project_id : Option Int) (page page_size : Nat) (s : Store) :
    List Claim :=
  let base :=
    match project_id with
    | some pid => if pid ≠ 0 then s.claims.filter (fun c => c.project_id == pid) else s.claims
    | none => s.claims
  ((sortByCreatedDesc base).drop ((page - 1) * page_size)).take page_size

/-!
Part 2: the extraction core.  The Python modules implementing
SchemaValidator, ReferenceIdentityResolver, ExtractionOrchestrator and
ExtractionPipeline are not part of this checkout (only their user guide
and callers are), so every definition below is modelled from the
specification text, §4.1-§4.4, quoted in the doc comments.
-/

/-- Errors of the extraction pipeline (spec §7): `InvalidInputError`,
`ModelUnavailableError`, and `MalformedExtractionError` carrying which
field or shape failed. -/
inductive PipeError
  | invalidInput
  | modelUnavailable
  | malformed (field : String)
deriving DecidableEq

/-- Raw per-claim object of the model response, before validation.
Modelled from the spec: §4.1 — a JSON-like record whose fields may be
absent and whose `claim_type` is an arbitrary string; raw
`reference_indices` are arbitrary integers. -/
structure RawClaim where
  text : Option String
  claim_type : Option String
  page_number : Option Int
  paragraph_index : Option Int
  reference_indices : List Int
deriving DecidableEq

/-- Raw per-reference object of the model response, before validation.
Modelled from the spec: §4.1. -/
structure RawReference where
  title : Option String
  authors : Option String
  year : Option Int
  source : Option String
  doi : Option String
  url : Option String
deriving DecidableEq

/-- Raw model response: the two arrays the prompt asks for.  Modelled
from the spec: §4.3. -/
structure RawResponse where
  claims : List RawClaim
  references : List RawReference
deriving DecidableEq

/-- Validated claim draft.  Modelled from the spec: §4.1 — non-empty
`text`, a defaulted `claim_type`, and `reference_indices` reduced to the
in-range ones. -/
structure ClaimDraft where
  text : String
  claim_type : ClaimType
  page_number : Option Int
  paragraph_index : Option Int
  reference_indices : List Nat
deriving DecidableEq

/-- Validated reference draft.  Modelled from the spec: §4.1 — non-empty
trimmed `title`, remaining fields optional and trimmed. -/
structure ReferenceDraft where
  title : String
  authors : Option String
  year : Option Int
  source : Option String
  doi : Option String
  url : Option String
deriving DecidableEq

/-- Validated `ExtractionResult` plus the soft-anomaly count (unknown
claim types defaulted, out-of-range indices dropped).  Modelled from the
spec: §4.1. -/
structure ExtractionResult where
  claims : List ClaimDraft
  references : List ReferenceDraft
  anomalies : Nat
deriving DecidableEq

/-- Effect-free sequencing of a fallible validator over a list (the
`Except` elaboration of a Python list comprehension that may raise). -/
def mapE {α β : Type} (f : α → Except PipeError β) : List α → Except PipeError (List β)
  | [] => .ok []
  | a :: as =>
    match f a with
    | .error e => .error e
    | .ok b =>
      match mapE f as with
      | .error e => .error e
      | .ok bs => .ok (b :: bs)

/-- Recognizer for the five enumerated claim-type strings.  Modelled
from the spec: §4.1. -/
def claimTypeOfString : String → Option ClaimType
  | "factual" => some .factual
  | "statistical" => some .statistical
  | "methodological" => some .methodological
  | "opinion" => some .opinion
  | "conclusion" => some .conclusion
  | _ => none

/-- SchemaValidator on one raw claim.  Modelled from the spec: §4.1 —
"Each claim draft must contain non-empty `text`; `claim_type` must be
one of the five enumerated values, defaulting to `factual` if absent or
unrecognized (never fails solely for an unknown type — logged as a soft
anomaly)", and "Indices out of range are dropped (not an error) and
recorded as an anomaly count".  Returns the draft and its anomaly
contribution. -/
def validateClaim (nrefs : Nat) (c : RawClaim) :
    Except PipeError (ClaimDraft × Nat) :=
  match c.text with
  | none => .error (.malformed ("claim.text"))
  | some t =>
    if t = "" then .error (.malformed ("claim.text"))
    else
      let typed :=
        match c.claim_type with
        | none => (ClaimType.factual, 1)
        | some ts =>
          match claimTypeOfString ts with
          | some ct => (ct, 0)
          | none => (ClaimType.factual, 1)
      let valid := c.reference_indices.filter
        (fun i => decide (0 ≤ i) && decide (i < (nrefs : Int)))
      let dropped := c.reference_indices.length - valid.length
      .ok (⟨t, typed.1, c.page_number, c.paragraph_index, valid.map Int.toNat⟩,
        typed.2 + dropped)

/-- Whitespace trimming on the character list of a string (the model of
Python `str.strip` / Lean `String.trim`, written structurally so that
concrete inputs evaluate). -/
def charsTrim (l : List Char) : List Char :=
  ((l.dropWhile Char.isWhitespace).reverse.dropWhile Char.isWhitespace).reverse

/-- Trim leading and trailing whitespace. -/
def trimStr (s : String) : String := String.mk (charsTrim s.data)

/-- Character-wise lower-casing. -/
def lowerStr (s : String) : String := String.mk (s.data.map Char.toLower)

/-- SchemaValidator on one raw reference.  Modelled from the spec: §4.1
— "Each reference draft must contain a non-empty `title`; all other
fields optional and normalized (trim whitespace, ...)". -/
def validateReference (r : RawReference) : Except PipeError ReferenceDraft :=
  match r.title with
  | none => .error (.malformed ("reference.title"))
  | some t =>
    if trimStr t = "" then .error (.malformed ("reference.title"))
    else
      .ok ⟨trimStr t, r.authors.map trimStr, r.year, r.source.map trimStr,
        r.doi.map trimStr, r.url.map trimStr⟩

/-- SchemaValidator.  Modelled from the spec: §4.1 — validate the
reference list, then each claim against the length of that list, and
total the soft anomalies; a pure transform. -/
def validate (raw : RawResponse) : Except PipeError ExtractionResult :=
  match mapE validateReference raw.references with
  | .error e => .error e
  | .ok refs =>
    match mapE (validateClaim refs.length) raw.claims with
    | .error e => .error e
    | .ok pairs =>
      .ok ⟨pairs.map Prod.fst, refs, (pairs.map Prod.snd).sum⟩

/-- DOI normalization of ReferenceIdentityResolver tier 1.  Modelled
from the spec: §4.2 — "normalize (trim, lower-case, strip a leading
`https://doi.org/` or `doi:` prefix)". -/
def normalizeDoi (s : String) : String :=
  let t := (lowerStr (trimStr s)).data
  if ("https://doi.org/".data).isPrefixOf t then String.mk (t.drop 16)
  else if ("doi:".data).isPrefixOf t then String.mk (t.drop 4)
  else String.mk t

/-- Collapse each whitespace run to a single space (helper of the tier-2
normalization); the flag records whether the previous kept character was
whitespace. -/
def collapseWsGo : Bool → List Char → List Char
  | _, [] => []
  | prevWs, c :: cs =>
    if c.isWhitespace then
      if prevWs then collapseWsGo true cs else ' ' :: collapseWsGo true cs
    else c :: collapseWsGo false cs

/-- Title/author normalization of tier 2.  Modelled from the spec: §4.2
— "lower-case, collapse whitespace, strip punctuation"; ASCII
punctuation is stripped, non-ASCII characters are kept as-is
(comparison is diacritic-sensitive, §4.2 edge cases). -/
def normalizeTitleKey (s : String) : String :=
  let kept := ((lowerStr s).data).filter
    (fun ch => ch.isAlphanum || ch.isWhitespace || decide (127 < ch.val.toNat))
  String.mk (charsTrim (collapseWsGo true kept))

/-- First-author extraction of tier 2.  Modelled from the spec: §4.2 —
"first comma-separated or first whitespace-separated segment". -/
def firstAuthorSegment (s : String) : String :=
  if s.data.any (fun c => c == ',') then
    String.mk (s.data.takeWhile (fun c => c != ','))
  else
    String.mk ((charsTrim s.data).takeWhile (fun c => ¬ c.isWhitespace))

/-- Outcome of ReferenceIdentityResolver (spec §4.2):
`REUSE reference_id` or `CREATE`. -/
inductive ResolveAction
  | reuse (id : Int)
  | create
deriving DecidableEq

/-- Tier-1 row predicate: an existing reference whose normalized DOI
equals the candidate's normalized DOI.  Modelled from the spec: §4.2. -/
def doiTierMatch (nd : String) (r : Reference) : Bool :=
  match r.doi with
  | some rd => normalizeDoi rd == nd
  | none => false

/-- Tier-2 composite key of a stored reference or draft field pair.
Modelled from the spec: §4.2 — "composite key =
hash(normalized_title, normalized_first_author)", modelled as the
pair itself. -/
def titleAuthorKey (title : String) (authors : Option String) : String × String :=
  (normalizeTitleKey title, normalizeTitleKey (firstAuthorSegment (authors.getD (""))))

/-- Tier 2 of ReferenceIdentityResolver.  Modelled from the spec: §4.2
— an empty normalized title is never eligible and falls through to
CREATE; otherwise the first stored reference with an equal composite
key is reused. -/
def titleTier (c : ReferenceDraft) (refs : List Reference) : ResolveAction :=
  let key := titleAuthorKey c.title c.authors
  if key.1 = "" then .create
  else
    match refs.find? (fun r => titleAuthorKey r.title r.authors == key) with
    | some r => .reuse r.id
    | none => .create

/-- ReferenceIdentityResolver.  Modelled from the spec: §4.2 — tiered,
first match wins: when the candidate DOI is present and non-empty the
DOI tier is authoritative (tier 2 is only reached "else", i.e. when the
DOI is absent or empty); otherwise the title+author tier; absence of a
match is a normal CREATE, never an error. -/
def resolve (c : ReferenceDraft) (refs : List Reference) : ResolveAction :=
  match c.doi with
  | some d =>
    if d ≠ "" then
      match refs.find? (doiTierMatch (normalizeDoi d)) with
      | some r => .reuse r.id
      | none => .create
    else titleTier c refs
  | none => titleTier c refs

/-- The stored row persisted for a newly created reference draft.
Modelled from the spec: §4.4 step 4. -/
def mkStoredRef (rid : Int) (d : ReferenceDraft) : Reference :=
  ⟨rid, d.title, d.authors, d.year, d.source, d.doi, d.url⟩

/-- One resolver-plus-persist step for a single draft: REUSE leaves the
store unchanged and yields the existing id, CREATE appends the new row
and yields its id.  Modelled from the spec: §4.4 steps 3-4. -/
def resolveStep (d : ReferenceDraft) (s : Store) : Store × Int :=
  match resolve d s.references with
  | .reuse i => (s, i)
  | .create =>
      ({ s with references := s.references ++ [mkStoredRef s.nextRefId d],
                nextRefId := s.nextRefId + 1 }, s.nextRefId)

/-- Result of resolving a whole batch of reference drafts: the updated
store, the index-position → reference-id map, and the two counters.
Modelled from the spec: §4.4 steps 3-4. -/
structure BatchRefs where
  store : Store
  idMap : List Int
  created : Nat
  deduplicated : Nat
deriving DecidableEq

/-- Resolve each draft against the persisted store combined with the
references already created earlier in the same batch, building the
index → id map and counters.  Modelled from the spec: §4.4 step 3. -/
def resolveRefs : List ReferenceDraft → Store → BatchRefs
  | [], s => ⟨s, [], 0, 0⟩
  | d :: ds, s =>
    match resolve d s.references with
    | .reuse i =>
        let rest := resolveRefs ds s
        ⟨rest.store, i :: rest.idMap, rest.created, rest.deduplicated + 1⟩
    | .create =>
        let s1 : Store :=
          { s with references := s.references ++ [mkStoredRef s.nextRefId d],
                   nextRefId := s.nextRefId + 1 }
        let rest := resolveRefs ds s1
        ⟨rest.store, s.nextRefId :: rest.idMap, rest.created + 1, rest.deduplicated⟩

/-- Persist the claim drafts: one claim row per draft, then one link
row per (valid, already range-filtered) reference index, resolved
through the index → id map.  Modelled from the spec: §4.4 step 5. -/
def persistClaims (pid : Int) (idMap : List Int) :
    List ClaimDraft → Store → Store
  | [], s => s
  | d :: ds, s =>
    let cid := s.nextClaimId
    let row : Claim := ⟨cid, pid, d.text, d.claim_type, d.page_number,
      d.paragraph_index, cid⟩
    let s1 : Store :=
      { s with claims := s.claims ++ [row],
               links := s.links ++
                 d.reference_indices.map (fun i => ⟨cid, idMap.getD i 0, none, none⟩),
               nextClaimId := cid + 1 }
    persistClaims pid idMap ds s1

/-- Aggregate counters returned by the pipeline (spec §4.4 step 6). -/
structure Summary where
  claims_created : Nat
  references_created : Nat
  references_deduplicated : Nat
deriving DecidableEq

/-- Persistence phase of one extraction batch: resolve the references,
then persist claims and links.  Modelled from the spec: §4.4 steps 3-6. -/
def persistBatch (pid : Int) (vr : ExtractionResult) (s : Store) :
    Store × Summary :=
  let br := resolveRefs vr.references s
  (persistClaims pid br.idMap vr.claims br.store,
    ⟨vr.claims.length, br.created, br.deduplicated⟩)

/-- The deterministic extraction prompt (spec §4.3).  Modelled from the
spec: its exact wording is immaterial, only that it is a pure function
of the input text. -/
def buildPrompt (text : String) : String :=
  String.append ("Extract the claims and references arrays from the text: ") text

/-- ExtractionPipeline.run.  Modelled from the spec: §4.4 — step 1
rejects empty/whitespace-only text with `InvalidInputError` before any
model call (and a missing project likewise, §7); step 2 invokes the
model client exactly once through the orchestrator and validates; steps
3-6 persist and report.  Any error leaves the store untouched. -/
def runPipeline (pid : Int) (text : String)
    (client : String → Except PipeError RawResponse) (s : Store) :
    Except PipeError (Store × Summary) :=
  if trimStr text = "" then .error .invalidInput
  else if pid ∉ s.projects then .error .invalidInput
  else
    match client (buildPrompt text) with
    | .error e => .error e
    | .ok raw =>
      match validate raw with
      | .error e => .error e
      | .ok vr => .ok (persistBatch pid vr s)

/-!
Auxiliary notions used by the statements: the link-row multiplicity of a
pair, the data-model invariants, and requests to the link endpoint.
-/

/-- Number of `ClaimReference` rows stored for one
(claim_id, reference_id) pair. -/
def linkCount (s : Store) (c r : Int) : Nat :=
  (s.links.filter (linkPred c r)).length

/-- Data-model invariant (spec §3): at most one link row per
(claim_id, reference_id) pair. -/
def AtMostOneLinkPerPair (s : Store) : Prop :=
  ∀ c r : Int, linkCount s c r ≤ 1

/-- Data-model invariant (spec §3): for every stored link the relevance score
is null or in [0,1]. -/
def ScoresInRange (s : Store) : Prop :=
  ∀ l ∈ s.links, ∀ q : ℚ, l.relevance_score = some q → 0 ≤ q ∧ q ≤ 1

/-- One request to `POST /claims/{claim_id}/references/{reference_id}`. -/
structure LinkReq where
  claim_id : Int
  reference_id : Int
  relevance_score : Option ℚ
  context : Option String

/-- Run one link request against the store; a request that errors (404,
validation, multiple results) leaves the store unchanged, since every
error is raised before the commit. -/
def applyLinkReq (s : Store) (req : LinkReq) : Store :=
  match link_claim_to_reference req.claim_id req.reference_id
      req.relevance_score req.context s with
  | .ok s' => s'
  | .error _ => s

/-!
Theorems.  Each claim of the specification gets one theorem below; the
lemmas in between are shared plumbing.
-/

theorem mem_insertDesc {c x : Claim} {l : List Claim} :
    x ∈ insertDesc c l ↔ x = c ∨ x ∈ l := by
  induction l with
  | nil => simp [insertDesc]
  | cons d ds ih =>
    simp only [insertDesc]
    split
    · simp [or_comm, or_assoc, or_left_comm]
    · simp [ih]; tauto

theorem mem_sortByCreatedDesc {x : Claim} {l : List Claim} :
    x ∈ sortByCreatedDesc l ↔ x ∈ l := by
  induction l with
  | nil => simp [sortByCreatedDesc]
  | cons c cs ih => simp [sortByCreatedDesc, mem_insertDesc, ih]

/-- C9: the claim-listing endpoint treats a `project_id` filter of 0 the
same as no filter (the filter is applied only when the parameter is
truthy), and for a strictly positive `project_id` every returned claim
belongs to that project. -/
theorem list_claims_zero_filter (page psize : Nat) (s : Store) :
    list_claims (some 0) page psize s = list_claims none page psize s ∧
    ∀ pid : Int, 0 < pid → ∀ c ∈ list_claims (some pid) page psize s,
      c.project_id = pid := by
  constructor
  · simp [list_claims]
  · intro pid hpid c hc
    simp only [list_claims, if_pos hpid.ne'] at hc
    have hmem := List.mem_of_mem_drop (List.mem_of_mem_take hc)
    have hfil := mem_sortByCreatedDesc.mp hmem
    have := List.of_mem_filter hfil
    simpa using this

/-- Witness for C9 at a store holding one claim of project 1. -/
theorem list_claims_zero_filter_witness :
    (list_claims (some 0) 1 20 ⟨[1], [⟨1, 1, ("t"), .factual, none, none, 1⟩], [], [], 2, 1⟩ =
      list_claims none 1 20 ⟨[1], [⟨1, 1, ("t"), .factual, none, none, 1⟩], [], [], 2, 1⟩) ∧
    Claim.project_id ⟨1, 1, ("t"), .factual, none, none, 1⟩ = 1 := by
  refine ⟨(list_claims_zero_filter 1 20 _).1, ?_⟩
  exact (list_claims_zero_filter 1 20
      ⟨[1], [⟨1, 1, ("t"), .factual, none, none, 1⟩], [], [], 2, 1⟩).2
    1 (by decide) ⟨1, 1, ("t"), .factual, none, none, 1⟩ (by decide)

/-- C3: the `project_id` of a claim is immutable under the update endpoint —
an update may rewrite text/type/position, but every row keeps its id and
its `project_id`. -/
theorem update_claim_preserves_project_id (cid : Int) (u : ClaimUpdate)
    (s s' : Store) (h : update_claim cid u s = .ok s') :
    s'.claims.map (fun c => (c.id, c.project_id)) =
      s.claims.map (fun c => (c.id, c.project_id)) := by
  unfold update_claim at h
  cases hf : s.claims.find? (fun c => c.id == cid) with
  | none => rw [hf] at h; cases h
  | some c0 =>
    rw [hf] at h
    cases h
    have hfun : ((fun c : Claim => (c.id, c.project_id)) ∘
        (fun c => if c.id == cid then applyUpdate u c else c)) =
        fun c : Claim => (c.id, c.project_id) := by
      funext c
      by_cases hc : c.id = cid <;> simp [applyUpdate, beq_iff_eq, hc]
    simp only [List.map_map, hfun]

/-- Witness for C3: updating the text of claim 1 keeps (id, project_id)
pairs intact. -/
theorem update_claim_preserves_project_id_witness :
    (Store.claims ⟨[5], [⟨1, 5, ("new"), .opinion, none, none, 1⟩], [], [], 2, 1⟩).map
        (fun c => (c.id, c.project_id)) =
      (Store.claims ⟨[5], [⟨1, 5, ("old"), .factual, none, none, 1⟩], [], [], 2, 1⟩).map
        (fun c => (c.id, c.project_id)) :=
  update_claim_preserves_project_id 1
    ⟨some ("new"), some .opinion, none, none⟩
    ⟨[5], [⟨1, 5, ("old"), .factual, none, none, 1⟩], [], [], 2, 1⟩
    ⟨[5], [⟨1, 5, ("new"), .opinion, none, none, 1⟩], [], [], 2, 1⟩
    (by rfl)

theorem link_ok_shape (cid rid : Int) (sc : Option ℚ) (ctx : Option String)
    (s s' : Store) (h : link_claim_to_reference cid rid sc ctx s = .ok s') :
    scoreOutOfRange sc = false ∧
    ((s.links.filter (linkPred cid rid) = [] ∧
        s' = { s with links := s.links ++ [⟨cid, rid, sc, ctx⟩] }) ∨
      (∃ x, s.links.filter (linkPred cid rid) = [x] ∧
        s' = { s with links := applyLinkUpdate cid rid sc ctx s.links })) := by
  unfold link_claim_to_reference at h
  split at h
  · cases h
  · next hsc =>
    split at h
    · cases h
    · split at h
      · cases h
      · refine ⟨by simpa using hsc, ?_⟩
        cases hF : s.links.filter (linkPred cid rid) with
        | nil =>
          rw [hF] at h
          simp only [scalarOneOrNone] at h
          injection h with h
          exact Or.inl ⟨rfl, h.symm⟩
        | cons x xs =>
          cases xs with
          | nil =>
            rw [hF] at h
            simp only [scalarOneOrNone] at h
            injection h with h
            exact Or.inr ⟨x, rfl, h.symm⟩
          | cons y ys =>
            rw [hF] at h
            simp only [scalarOneOrNone] at h
            cases h

theorem updateLink_keeps_pair (sc : Option ℚ) (ctx : Option String)
    (c r : Int) (l : ClaimReference) :
    linkPred c r (updateLink sc ctx l) = linkPred c r l := by
  simp [linkPred, updateLink]

theorem applyLinkReq_preserves (s : Store) (req : LinkReq)
    (h : AtMostOneLinkPerPair s) : AtMostOneLinkPerPair (applyLinkReq s req) := by
  unfold applyLinkReq
  cases hres : link_claim_to_reference req.claim_id req.reference_id
      req.relevance_score req.context s with
  | error e => exact h
  | ok s' =>
    obtain ⟨hsc, hshape⟩ := link_ok_shape _ _ _ _ _ _ hres
    intro c r
    rcases hshape with ⟨hF, rfl⟩ | ⟨x, hF, rfl⟩
    · show (List.filter (linkPred c r)
        (s.links ++ [⟨req.claim_id, req.reference_id,
          req.relevance_score, req.context⟩])).length ≤ 1
      rw [List.filter_append, List.length_append]
      by_cases hcr : c = req.claim_id ∧ r = req.reference_id
      · rcases hcr with ⟨e1, e2⟩
        rw [e1, e2]
        have h0 : (s.links.filter
            (linkPred req.claim_id req.reference_id)).length = 0 := by rw [hF]; rfl
        have h1 : (List.filter (linkPred req.claim_id req.reference_id)
            [(⟨req.claim_id, req.reference_id, req.relevance_score, req.context⟩ :
              ClaimReference)]).length ≤ 1 :=
          List.length_filter_le _ _
        omega
      · have hnew : linkPred c r
            (⟨req.claim_id, req.reference_id, req.relevance_score, req.context⟩ :
              ClaimReference) = false := by
          by_cases e1 : req.claim_id = c
          · by_cases e2 : req.reference_id = r
            · exact absurd ⟨e1.symm, e2.symm⟩ hcr
            · simp [linkPred, beq_iff_eq, e2]
          · simp [linkPred, beq_iff_eq, e1]
        have h1 : (List.filter (linkPred c r)
            [(⟨req.claim_id, req.reference_id, req.relevance_score, req.context⟩ :
              ClaimReference)]).length = 0 := by
          rw [List.filter_cons_of_neg (by simp [hnew]), List.filter_nil]
          rfl
        have h2 : (s.links.filter (linkPred c r)).length ≤ 1 := h c r
        omega
    · show (List.filter (linkPred c r) (applyLinkUpdate req.claim_id
        req.reference_id req.relevance_score req.context s.links)).length ≤ 1
      unfold applyLinkUpdate
      rw [← List.countP_eq_length_filter, List.countP_map]
      have hcon : List.countP (linkPred c r ∘
          (fun l => if linkPred req.claim_id req.reference_id l then
            updateLink req.relevance_score req.context l else l)) s.links =
          List.countP (linkPred c r) s.links := by
        apply List.countP_congr
        intro l _
        by_cases hp : linkPred req.claim_id req.reference_id l
        · simp [Function.comp, hp, updateLink_keeps_pair]
        · simp [Function.comp, hp]
      rw [hcon, List.countP_eq_length_filter]
      exact h c r

/-- C6: the extraction pipeline rejects empty or whitespace-only input
before the model client is consulted: for every client and store the
run is the same `InvalidInputError` and no store is produced. -/
theorem pipeline_rejects_blank_text (pid : Int) (text : String)
    (client : String → Except PipeError RawResponse) (s : Store)
    (h : trimStr text = "") :
    runPipeline pid text client s = .error .invalidInput := by
  simp [runPipeline, h]

/-- Witness for C6 on the literal two-space input. -/
theorem pipeline_rejects_blank_text_witness :
    runPipeline 1 ("  ") (fun _ => .error .modelUnavailable)
      ⟨[1], [], [], [], 1, 1⟩ = .error .invalidInput :=
  pipeline_rejects_blank_text 1 ("  ") (fun _ => .error .modelUnavailable)
    ⟨[1], [], [], [], 1, 1⟩ (by decide)

/-- C1: the link endpoint keeps at most one link row per
(claim_id, reference_id) pair — any sequence of link calls preserves the
invariant, and a call that finds an existing row for its pair updates it
in place without growing the table. -/
theorem linkOp_at_most_one_per_pair (reqs : List LinkReq) (s : Store)
    (h : AtMostOneLinkPerPair s) :
    AtMostOneLinkPerPair (reqs.foldl applyLinkReq s) ∧
    ∀ (cid rid : Int) (sc : Option ℚ) (ctx : Option String) (s' : Store),
      linkCount s cid rid = 1 →
      link_claim_to_reference cid rid sc ctx s = .ok s' →
      s'.links.length = s.links.length := by
  constructor
  · induction reqs generalizing s with
    | nil => exact h
    | cons r rs ih => exact ih _ (applyLinkReq_preserves s r h)
  · intro cid rid sc ctx s' h1 hok
    obtain ⟨hsc, hshape⟩ := link_ok_shape _ _ _ _ _ _ hok
    rcases hshape with ⟨hF, rfl⟩ | ⟨x, hF, rfl⟩
    · exfalso
      unfold linkCount at h1
      rw [hF] at h1
      simp at h1
    · show (applyLinkUpdate cid rid sc ctx s.links).length = s.links.length
      unfold applyLinkUpdate
      exact List.length_map _ _

/-- Witness for C1: re-linking the already linked pair (1,2) twice keeps
the invariant. -/
theorem linkOp_at_most_one_per_pair_witness :
    linkCount (List.foldl applyLinkReq
      ⟨[1], [⟨1, 1, ("t"), .factual, none, none, 1⟩],
        [⟨2, ("T"), none, none, none, none, none⟩], [⟨1, 2, none, none⟩], 2, 3⟩
      [⟨1, 2, some 1, none⟩, ⟨1, 2, none, some ("c")⟩]) 1 2 ≤ 1 :=
  (linkOp_at_most_one_per_pair [⟨1, 2, some 1, none⟩, ⟨1, 2, none, some ("c")⟩]
    ⟨[1], [⟨1, 1, ("t"), .factual, none, none, 1⟩],
      [⟨2, ("T"), none, none, none, none, none⟩], [⟨1, 2, none, none⟩], 2, 3⟩
    (fun _ _ => List.length_filter_le _ _)).1 1 2

theorem create_claim_ok_shape (p : ClaimCreate) (s s' : Store)
    (h : create_claim p s = .ok s') :
    s' = { s with
      claims := s.claims ++ [newClaimRow s.nextClaimId p],
      links := s.links ++
        p.reference_ids.map (fun rid => ⟨s.nextClaimId, rid, none, none⟩),
      nextClaimId := s.nextClaimId + 1 } := by
  unfold create_claim at h
  split at h
  · cases h
  · split at h
    · cases h
    · injection h with h
      exact h.symm

/-- C4: the link endpoint rejects a relevance score outside [0,1] by
query validation before touching the store, and both the link endpoint
and claim creation preserve the invariant that every stored link score
is null or in [0,1]. -/
theorem link_relevance_score_bounds :
    (∀ (cid rid : Int) (q : ℚ) (ctx : Option String) (s : Store),
      q < 0 ∨ 1 < q →
      link_claim_to_reference cid rid (some q) ctx s = .error .validationError) ∧
    (∀ (cid rid : Int) (sc : Option ℚ) (ctx : Option String) (s s' : Store),
      ScoresInRange s → link_claim_to_reference cid rid sc ctx s = .ok s' →
      ScoresInRange s') ∧
    (∀ (p : ClaimCreate) (s s' : Store),
      ScoresInRange s → create_claim p s = .ok s' → ScoresInRange s') := by
  refine ⟨?_, ?_, ?_⟩
  · intro cid rid q ctx s hq
    have hbad : scoreOutOfRange (some q) = true := by
      simp only [scoreOutOfRange, Bool.or_eq_true, decide_eq_true_eq]
      exact hq
    unfold link_claim_to_reference
    rw [if_pos hbad]
  · intro cid rid sc ctx s s' hs hok
    obtain ⟨hsc, hshape⟩ := link_ok_shape _ _ _ _ _ _ hok
    have hscq : ∀ q : ℚ, sc = some q → 0 ≤ q ∧ q ≤ 1 := by
      intro q hq
      subst hq
      simp only [scoreOutOfRange, Bool.or_eq_false_iff, decide_eq_false_iff_not] at hsc
      exact ⟨not_lt.mp hsc.1, not_lt.mp hsc.2⟩
    rcases hshape with ⟨hF, rfl⟩ | ⟨x, hF, rfl⟩
    · intro l hl q hq
      rcases List.mem_append.mp hl with hold | hnew
      · exact hs l hold q hq
      · have : l = ⟨cid, rid, sc, ctx⟩ := by simpa using hnew
        subst this
        exact hscq q hq
    · intro l hl q hq
      obtain ⟨l0, hl0, rfl⟩ := List.mem_map.mp hl
      by_cases hp : linkPred cid rid l0
      · rw [if_pos hp] at hq
        unfold updateLink at hq
        cases hsc' : sc with
        | some q' =>
          rw [hsc'] at hq
          simp at hq
          rw [← hq]
          exact hscq q' hsc'
        | none =>
          rw [hsc'] at hq
          simp at hq
          exact hs l0 hl0 q hq
      · rw [if_neg hp] at hq
        exact hs l0 hl0 q hq
  · intro p s s' hs hok
    have hsh := create_claim_ok_shape p s s' hok
    subst hsh
    intro l hl q hq
    rcases List.mem_append.mp hl with hold | hnew
    · exact hs l hold q hq
    · obtain ⟨rid, _, rfl⟩ := List.mem_map.mp hnew
      cases hq

/-- Witness for C4: a score of 2 is rejected by validation. -/
theorem link_relevance_score_bounds_witness :
    link_claim_to_reference 1 1 (some 2) none ⟨[], [], [], [], 1, 1⟩ =
      .error .validationError :=
  link_relevance_score_bounds.1 1 1 2 none ⟨[], [], [], [], 1, 1⟩
    (Or.inr (by norm_num))

/-- C10: under the at-most-one-link invariant, unlinking fails with the
404 "Link not found" exactly when no row exists for the pair (leaving
the store unchanged, since the error is raised before any delete), and
otherwise deletes exactly that one row: claims, references, projects and
the link rows of every other pair are untouched, and the table shrinks
by one. -/
theorem unlink_exact (cid rid : Int) (s : Store)
    (h : linkCount s cid rid ≤ 1) :
    (unlink_claim_from_reference cid rid s =
        .error (.notFound ("Link not found")) ↔ linkCount s cid rid = 0) ∧
    ∀ s', unlink_claim_from_reference cid rid s = .ok s' →
      s'.projects = s.projects ∧ s'.claims = s.claims ∧
      s'.references = s.references ∧
      linkCount s' cid rid = 0 ∧
      (∀ c r : Int, ¬(c = cid ∧ r = rid) → linkCount s' c r = linkCount s c r) ∧
      s'.links.length + 1 = s.links.length ∧ s'.links.Sublist s.links := by
  cases hF : s.links.filter (linkPred cid rid) with
  | nil =>
    have hcnt : linkCount s cid rid = 0 := by unfold linkCount; rw [hF]; rfl
    have hrun : unlink_claim_from_reference cid rid s =
        .error (.notFound ("Link not found")) := by
      unfold unlink_claim_from_reference
      rw [hF]
      rfl
    refine ⟨by simp [hrun, hcnt], ?_⟩
    intro s' hok
    rw [hrun] at hok
    cases hok
  | cons x xs =>
    cases xs with
    | cons y ys =>
      exfalso
      unfold linkCount at h
      rw [hF] at h
      simp at h
    | nil =>
      have hrun : unlink_claim_from_reference cid rid s =
          .ok { s with links := s.links.eraseP (linkPred cid rid) } := by
        unfold unlink_claim_from_reference
        rw [hF]
        rfl
      have hx_mem : x ∈ s.links :=
        List.mem_of_mem_filter (hF ▸ List.mem_singleton_self x)
      have hpx : linkPred cid rid x = true :=
        List.of_mem_filter (hF ▸ List.mem_singleton_self x)
      constructor
      · rw [hrun]
        unfold linkCount
        rw [hF]
        simp
      · intro s' hok
        rw [hrun] at hok
        injection hok with hok
        subst hok
        obtain ⟨a, l1, l2, hnp, hpa, hsplit, herase⟩ :=
          List.exists_of_eraseP hx_mem hpx
        have hl1 : List.filter (linkPred cid rid) l1 = [] :=
          List.filter_eq_nil_iff.mpr hnp
        have hl2 : List.filter (linkPred cid rid) l2 = [] := by
          unfold linkCount at h
          rw [hsplit, List.filter_append, List.filter_cons_of_pos hpa, hl1] at h
          simp at h
          exact List.filter_eq_nil_iff.mpr (fun b hb => by simp [h b hb])
        have hpair : a.claim_id = cid ∧ a.reference_id = rid := by
          simpa [linkPred] using hpa
        refine ⟨rfl, rfl, rfl, ?_, ?_, ?_, ?_⟩
        · show (List.filter (linkPred cid rid) (s.links.eraseP
            (linkPred cid rid))).length = 0
          rw [herase, List.filter_append, hl1, hl2]
          rfl
        · intro c r hne
          show (List.filter (linkPred c r) (s.links.eraseP
            (linkPred cid rid))).length = (List.filter (linkPred c r) s.links).length
          have hqa : linkPred c r a = false := by
            by_cases e1 : a.claim_id = c
            · by_cases e2 : a.reference_id = r
              · exact absurd ⟨by rw [← e1, hpair.1], by rw [← e2, hpair.2]⟩ hne
              · simp [linkPred, beq_iff_eq, e2]
            · simp [linkPred, beq_iff_eq, e1]
          rw [herase, hsplit, List.filter_append, List.filter_append,
            List.filter_cons_of_neg (by simp [hqa])]
        · show (s.links.eraseP (linkPred cid rid)).length + 1 = s.links.length
          rw [herase, hsplit]
          simp
          omega
        · exact List.eraseP_sublist _

/-- Witness for C10: unlinking the sole (1,2) link empties the table. -/
theorem unlink_exact_witness :
    linkCount ⟨[], [], [], [], 1, 1⟩ 1 2 = 0 :=
  ((unlink_exact 1 2 ⟨[], [], [], [⟨1, 2, none, none⟩], 1, 1⟩ (by decide)).2
    ⟨[], [], [], [], 1, 1⟩ (by rfl)).2.2.2.1

theorem filter_by_id_length (R : List Reference) (L : List Int) :
    (R.filter (fun r => decide (r.id ∈ L))).length =
      ((R.map (fun r => r.id)).filter (fun i => decide (i ∈ L))).length := by
  induction R with
  | nil => rfl
  | cons r rs ih =>
    by_cases hmem : r.id ∈ L
    · simp only [List.filter_cons, List.map_cons, hmem]
      simp [ih]
    · simp only [List.filter_cons, List.map_cons, hmem]
      simp [ih]

theorem nodup_filter_mem_length_eq (I L : List Int) (hI : I.Nodup) (hL : L.Nodup)
    (hsub : ∀ x ∈ L, x ∈ I) :
    (I.filter (fun i => decide (i ∈ L))).length = L.length := by
  have hND : (I.filter (fun i => decide (i ∈ L))).Nodup := hI.filter _
  have hfin : (I.filter (fun i => decide (i ∈ L))).toFinset = L.toFinset := by
    ext x
    simp only [List.mem_toFinset, List.mem_filter, decide_eq_true_eq]
    exact ⟨fun hx => hx.2, fun hx => ⟨hsub x hx, hx⟩⟩
  rw [← List.toFinset_card_of_nodup hND, hfin, List.toFinset_card_of_nodup hL]

theorem toFinset_card_lt_of_not_nodup (L : List Int) (h : ¬L.Nodup) :
    L.toFinset.card < L.length := by
  induction L with
  | nil => exact absurd List.nodup_nil h
  | cons a L ih =>
    rw [List.toFinset_cons]
    by_cases ha : a ∈ L
    · have hins : insert a L.toFinset = L.toFinset :=
        Finset.insert_eq_self.mpr (List.mem_toFinset.mpr ha)
      rw [hins]
      have := List.toFinset_card_le L
      simp only [List.length_cons]
      omega
    · have hnd : ¬L.Nodup := fun hL => h (List.nodup_cons.mpr ⟨ha, hL⟩)
      have h1 := ih hnd
      have h2 := Finset.card_insert_le a L.toFinset
      simp only [List.length_cons]
      omega

theorem missing_filter_length_lt (I L : List Int) (hI : I.Nodup) (rid : Int)
    (hrid : rid ∈ L) (hmiss : rid ∉ I) :
    (I.filter (fun i => decide (i ∈ L))).length < L.length := by
  have hND : (I.filter (fun i => decide (i ∈ L))).Nodup := hI.filter _
  have hsubF : (I.filter (fun i => decide (i ∈ L))).toFinset ⊆
      L.toFinset.erase rid := by
    intro x hx
    rw [List.mem_toFinset] at hx
    have hxI := List.mem_of_mem_filter hx
    have hxL : x ∈ L := by simpa using List.of_mem_filter hx
    exact Finset.mem_erase.mpr ⟨fun e => hmiss (e ▸ hxI), List.mem_toFinset.mpr hxL⟩
  have h1 := (List.toFinset_card_of_nodup hND).symm
  have h2 := Finset.card_le_card hsubF
  have h3 := Finset.card_erase_of_mem (List.mem_toFinset.mpr hrid)
  have h4 := List.toFinset_card_le L
  have h5 : 0 < L.toFinset.card :=
    Finset.card_pos.mpr ⟨rid, List.mem_toFinset.mpr hrid⟩
  omega

theorem dup_filter_length_lt (I L : List Int) (hI : I.Nodup) (hdup : ¬L.Nodup) :
    (I.filter (fun i => decide (i ∈ L))).length < L.length := by
  have hND : (I.filter (fun i => decide (i ∈ L))).Nodup := hI.filter _
  have hsubF : (I.filter (fun i => decide (i ∈ L))).toFinset ⊆ L.toFinset := by
    intro x hx
    rw [List.mem_toFinset] at hx
    have hxL : x ∈ L := by simpa using List.of_mem_filter hx
    exact List.mem_toFinset.mpr hxL
  have h1 := (List.toFinset_card_of_nodup hND).symm
  have h2 := Finset.card_le_card hsubF
  have h3 := toFinset_card_lt_of_not_nodup L hdup
  omega

/-- C2 counterexample: with project 1 and reference 1 present, the
request listing reference_ids = [1, 1] names only existing references,
yet `create_claim` fails with the 404 — the row count of the `IN` query
(1 distinct row) is compared against the length of the list (2). -/
theorem create_claim_duplicate_ids_cex :
    ((1:Int) ∈ Store.projects
      ⟨[1], [], [⟨1, ("T"), none, none, none, none, none⟩], [], 1, 2⟩) ∧
    (∀ rid ∈ [(1:Int), 1], ∃ r ∈ Store.references
      ⟨[1], [], [⟨1, ("T"), none, none, none, none, none⟩], [], 1, 2⟩,
      r.id = rid) ∧
    create_claim ⟨1, ("t"), .factual, none, none, [1, 1]⟩
      ⟨[1], [], [⟨1, ("T"), none, none, none, none, none⟩], [], 1, 2⟩ =
      .error (.notFound ("One or more references not found")) :=
  ⟨by decide, by decide, by rfl⟩

/-- C2 (amended): assuming distinct stored reference ids (primary keys),
claim creation is atomic: it fails with a not-found error — before
creating anything — when the project is missing, when a listed reference
id does not exist, or when the reference_ids list contains a repeated
id; when the project exists and the listed reference ids are distinct
and all exist, it creates exactly one claim row plus one link row per
listed reference id and nothing else changes. -/
theorem create_claim_atomic_amended (p : ClaimCreate) (s : Store)
    (hnd : (s.references.map (fun r => r.id)).Nodup) :
    (p.project_id ∉ s.projects →
      create_claim p s = .error (.notFound ("Project not found"))) ∧
    (p.project_id ∈ s.projects →
      ((∃ rid ∈ p.reference_ids, ∀ r ∈ s.references, r.id ≠ rid) ∨
        ¬p.reference_ids.Nodup) →
      create_claim p s = .error (.notFound ("One or more references not found"))) ∧
    (p.project_id ∈ s.projects → p.reference_ids.Nodup →
      (∀ rid ∈ p.reference_ids, ∃ r ∈ s.references, r.id = rid) →
      create_claim p s = .ok { s with
        claims := s.claims ++ [newClaimRow s.nextClaimId p],
        links := s.links ++
          p.reference_ids.map (fun rid => ⟨s.nextClaimId, rid, none, none⟩),
        nextClaimId := s.nextClaimId + 1 }) := by
  refine ⟨?_, ?_, ?_⟩
  · intro hmem
    unfold create_claim
    rw [if_pos hmem]
  · intro hmem hbad
    unfold create_claim
    rw [if_neg (not_not_intro hmem)]
    have hlt : (s.references.filter
        (fun r => decide (r.id ∈ p.reference_ids))).length < p.reference_ids.length := by
      rw [filter_by_id_length]
      rcases hbad with ⟨rid, hridL, hmiss⟩ | hdup
      · refine missing_filter_length_lt _ _ hnd rid hridL ?_
        intro hin
        obtain ⟨r, hr, he⟩ := List.mem_map.mp hin
        exact hmiss r hr he
      · exact dup_filter_length_lt _ _ hnd hdup
    have hne : p.reference_ids ≠ [] := by
      rcases hbad with ⟨rid, hridL, _⟩ | hdup
      · exact List.ne_nil_of_mem hridL
      · intro he
        rw [he] at hdup
        exact hdup List.nodup_nil
    rw [if_pos ⟨hne, Nat.ne_of_lt hlt⟩]
  · intro hmem hLnd hex
    unfold create_claim
    rw [if_neg (not_not_intro hmem)]
    have hlen : (s.references.filter
        (fun r => decide (r.id ∈ p.reference_ids))).length = p.reference_ids.length := by
      rw [filter_by_id_length]
      refine nodup_filter_mem_length_eq _ _ hnd hLnd ?_
      intro x hx
      obtain ⟨r, hr, he⟩ := hex x hx
      exact List.mem_map.mpr ⟨r, hr, he⟩
    rw [if_neg (by intro hcon; exact hcon.2 hlen)]

/-- Witness for C2 (amended), success branch: one existing reference,
listed once. -/
theorem create_claim_atomic_amended_witness :
    create_claim ⟨1, ("t"), .factual, none, none, [1]⟩
      ⟨[1], [], [⟨1, ("T"), none, none, none, none, none⟩], [], 1, 2⟩ =
      .ok ⟨[1], [newClaimRow 1 ⟨1, ("t"), .factual, none, none, [1]⟩],
        [⟨1, ("T"), none, none, none, none, none⟩], [⟨1, 1, none, none⟩], 2, 2⟩ :=
  (create_claim_atomic_amended ⟨1, ("t"), .factual, none, none, [1]⟩
    ⟨[1], [], [⟨1, ("T"), none, none, none, none, none⟩], [], 1, 2⟩
    (by decide)).2.2 (by decide) (by decide) (by decide)

theorem doi_second_reuses (d1 d2 : ReferenceDraft) (s : Store) (x y : String)
    (h1 : d1.doi = some x) (h2 : d2.doi = some y) (hx : x ≠ "") (hy : y ≠ "")
    (heq : normalizeDoi x = normalizeDoi y) :
    resolve d2 (resolveStep d1 s).1.references = .reuse (resolveStep d1 s).2 := by
  have hpred : doiTierMatch (normalizeDoi y) = doiTierMatch (normalizeDoi x) := by
    rw [heq]
  unfold resolveStep
  cases hf : s.references.find? (doiTierMatch (normalizeDoi x)) with
  | some r =>
    have hres1 : resolve d1 s.references = .reuse r.id := by
      simp only [resolve, h1]
      rw [if_pos hx, hf]
    rw [hres1]
    simp only [resolve, h2]
    rw [if_pos hy, hpred, hf]
  | none =>
    have hres1 : resolve d1 s.references = .create := by
      simp only [resolve, h1]
      rw [if_pos hx, hf]
    rw [hres1]
    simp only [resolve, h2]
    rw [if_pos hy, hpred]
    have hrow : doiTierMatch (normalizeDoi x)
        (⟨s.nextRefId, d1.title, d1.authors, d1.year, d1.source, d1.doi, d1.url⟩ :
          Reference) = true := by
      simp [doiTierMatch, h1]
    rw [List.find?_append, hf]
    simp [List.find?, mkStoredRef, hrow]

theorem doi_assigned_id_eq (d1 d2 : ReferenceDraft) (s : Store) (x y : String)
    (h1 : d1.doi = some x) (h2 : d2.doi = some y) (hx : x ≠ "") (hy : y ≠ "")
    (heq : normalizeDoi x = normalizeDoi y) :
    (resolveStep d1 s).2 = (resolveStep d2 s).2 := by
  have hpred : doiTierMatch (normalizeDoi y) = doiTierMatch (normalizeDoi x) := by
    rw [heq]
  unfold resolveStep
  cases hf : s.references.find? (doiTierMatch (normalizeDoi x)) with
  | some r =>
    have e1 : resolve d1 s.references = .reuse r.id := by
      simp only [resolve, h1]
      rw [if_pos hx, hf]
    have e2 : resolve d2 s.references = .reuse r.id := by
      simp only [resolve, h2]
      rw [if_pos hy, hpred, hf]
    rw [e1, e2]
  | none =>
    have e1 : resolve d1 s.references = .create := by
      simp only [resolve, h1]
      rw [if_pos hx, hf]
    have e2 : resolve d2 s.references = .create := by
      simp only [resolve, h2]
      rw [if_pos hy, hpred, hf]
    rw [e1, e2]

/-- C5: the DOI tier is authoritative and order-independent — for two
drafts with present, non-empty DOIs equal after normalization, whichever
draft is processed first, resolving the other afterwards returns REUSE
of the id assigned to the first, and that id is the same in both
processing orders, regardless of titles or authors. -/
theorem doi_dedup_order_independent (d1 d2 : ReferenceDraft) (s : Store)
    (x y : String) (h1 : d1.doi = some x) (h2 : d2.doi = some y)
    (hx : x ≠ "") (hy : y ≠ "") (heq : normalizeDoi x = normalizeDoi y) :
    resolve d2 (resolveStep d1 s).1.references = .reuse (resolveStep d1 s).2 ∧
    resolve d1 (resolveStep d2 s).1.references = .reuse (resolveStep d2 s).2 ∧
    (resolveStep d1 s).2 = (resolveStep d2 s).2 :=
  ⟨doi_second_reuses d1 d2 s x y h1 h2 hx hy heq,
   doi_second_reuses d2 d1 s y x h2 h1 hy hx heq.symm,
   doi_assigned_id_eq d1 d2 s x y h1 h2 hx hy heq⟩

/-- Witness for C5: differently written DOIs `10.1/X` and `doi:10.1/x`
on drafts with different titles dedup to the same reference. -/
theorem doi_dedup_order_independent_witness :
    resolve ⟨("B"), none, none, none, some ("doi:10.1/x"), none⟩
      (resolveStep ⟨("A"), none, none, none, some ("10.1/X"), none⟩
        ⟨[], [], [], [], 1, 5⟩).1.references =
      .reuse (resolveStep ⟨("A"), none, none, none, some ("10.1/X"), none⟩
        ⟨[], [], [], [], 1, 5⟩).2 :=
  (doi_dedup_order_independent
    ⟨("A"), none, none, none, some ("10.1/X"), none⟩
    ⟨("B"), none, none, none, some ("doi:10.1/x"), none⟩
    ⟨[], [], [], [], 1, 5⟩ ("10.1/X") ("doi:10.1/x")
    rfl rfl (by decide) (by decide) (by decide)).1

theorem mapE_ok_mem {α β : Type} (f : α → Except PipeError β) :
    ∀ {l : List α} {l' : List β}, mapE f l = .ok l' →
      ∀ b ∈ l', ∃ a ∈ l, f a = .ok b := by
  intro l
  induction l with
  | nil =>
    intro l' h b hb
    unfold mapE at h
    injection h with h
    subst h
    cases hb
  | cons a as ih =>
    intro l' h b hb
    unfold mapE at h
    cases hfa : f a with
    | error e => rw [hfa] at h; cases h
    | ok b0 =>
      rw [hfa] at h
      cases hrest : mapE f as with
      | error e => rw [hrest] at h; cases h
      | ok bs =>
        rw [hrest] at h
        injection h with h
        subst h
        rcases List.mem_cons.mp hb with rfl | hbs
        · exact ⟨a, List.mem_cons_self a as, hfa⟩
        · obtain ⟨a', ha', hfa'⟩ := ih hrest b hbs
          exact ⟨a', List.mem_cons_of_mem a ha', hfa'⟩

theorem mapE_ok_of_all {α β : Type} (f : α → Except PipeError β) :
    ∀ (l : List α), (∀ a ∈ l, ∃ b, f a = .ok b) →
      ∃ l', mapE f l = .ok l' := by
  intro l
  induction l with
  | nil => intro _; exact ⟨[], rfl⟩
  | cons a as ih =>
    intro h
    obtain ⟨b, hb⟩ := h a (List.mem_cons_self a as)
    obtain ⟨bs, hbs⟩ := ih (fun a' ha' => h a' (List.mem_cons_of_mem a ha'))
    refine ⟨b :: bs, ?_⟩
    unfold mapE
    rw [hb, hbs]

theorem validate_ok_parts (raw : RawResponse) (vr : ExtractionResult)
    (hv : validate raw = .ok vr) :
    ∃ refs pairs, mapE validateReference raw.references = .ok refs ∧
      mapE (validateClaim refs.length) raw.claims = .ok pairs ∧
      vr.references = refs ∧ vr.claims = pairs.map Prod.fst := by
  unfold validate at hv
  split at hv
  · cases hv
  · next refs h1 =>
    split at hv
    · cases hv
    · next pairs h2 =>
      injection hv with hv
      subst hv
      exact ⟨refs, pairs, h1, h2, rfl, rfl⟩

theorem validateClaim_ok_indices (nrefs : Nat) (c : RawClaim) (d : ClaimDraft)
    (k : Nat) (h : validateClaim nrefs c = .ok (d, k)) :
    d.reference_indices = (c.reference_indices.filter
      (fun i => decide (0 ≤ i) && decide (i < (nrefs : Int)))).map Int.toNat := by
  unfold validateClaim at h
  split at h
  · cases h
  · split at h
    · cases h
    · injection h with h
      injection h with hd hk
      subst hd
      rfl

theorem draft_indices_lt (nrefs : Nat) (inds : List Int) :
    ∀ i ∈ (inds.filter
      (fun i => decide (0 ≤ i) && decide (i < (nrefs : Int)))).map Int.toNat,
      i < nrefs := by
  intro i hi
  obtain ⟨j, hj, rfl⟩ := List.mem_map.mp hi
  have hb := List.of_mem_filter hj
  simp only [Bool.and_eq_true, decide_eq_true_eq] at hb
  omega

theorem resolveRefs_idMap_length :
    ∀ (ds : List ReferenceDraft) (s : Store),
      (resolveRefs ds s).idMap.length = ds.length := by
  intro ds
  induction ds with
  | nil => intro s; rfl
  | cons d ds ih =>
    intro s
    unfold resolveRefs
    cases resolve d s.references with
    | reuse i => simp [ih]
    | create => simp [ih]

theorem resolveRefs_store_frame :
    ∀ (ds : List ReferenceDraft) (s : Store),
      (resolveRefs ds s).store.links = s.links ∧
      (resolveRefs ds s).store.claims = s.claims := by
  intro ds
  induction ds with
  | nil => intro s; exact ⟨rfl, rfl⟩
  | cons d ds ih =>
    intro s
    unfold resolveRefs
    cases resolve d s.references with
    | reuse i => simpa using ih s
    | create => simpa using ih _

theorem persistClaims_link_mem (pid : Int) (idMap : List Int) :
    ∀ (ds : List ClaimDraft) (s : Store) (l : ClaimReference),
      l ∈ (persistClaims pid idMap ds s).links →
      l ∈ s.links ∨ ∃ d ∈ ds, ∃ i ∈ d.reference_indices,
        l.reference_id = idMap.getD i 0 := by
  intro ds
  induction ds with
  | nil => intro s l hl; exact Or.inl hl
  | cons d ds ih =>
    intro s l hl
    unfold persistClaims at hl
    rcases ih _ l hl with hin | ⟨d', hd', hi⟩
    · rcases List.mem_append.mp hin with hold | hnew
      · exact Or.inl hold
      · obtain ⟨i, hi, rfl⟩ := List.mem_map.mp hnew
        exact Or.inr ⟨d, List.mem_cons_self d ds, i, hi, rfl⟩
    · exact Or.inr ⟨d', List.mem_cons_of_mem d hd', hi⟩

/-- C7: out-of-range reference indices are dropped safely — in every
validated result each claim draft has exactly the in-range raw
indices (others dropped, never an error), the batch index → id map covers
every position of the reference list, and every link row the batch adds
points to the reference the batch resolved for an index the claim
actually listed. -/
theorem link_index_validity (raw : RawResponse) (vr : ExtractionResult)
    (hv : validate raw = .ok vr) :
    (∀ d ∈ vr.claims, ∀ i ∈ d.reference_indices, i < vr.references.length) ∧
    (∀ d ∈ vr.claims, ∃ rc ∈ raw.claims,
      d.reference_indices = (rc.reference_indices.filter
        (fun i => decide (0 ≤ i) &&
          decide (i < (vr.references.length : Int)))).map Int.toNat) ∧
    (∀ s : Store,
      (resolveRefs vr.references s).idMap.length = vr.references.length) ∧
    (∀ (pid : Int) (s : Store) (l : ClaimReference),
      l ∈ (persistBatch pid vr s).1.links →
      l ∈ s.links ∨ ∃ d ∈ vr.claims, ∃ i ∈ d.reference_indices,
        l.reference_id = (resolveRefs vr.references s).idMap.getD i 0) := by
  obtain ⟨refs, pairs, h1, h2, hrefs, hclaims⟩ := validate_ok_parts raw vr hv
  have hmem : ∀ d ∈ vr.claims, ∃ rc ∈ raw.claims,
      d.reference_indices = (rc.reference_indices.filter
        (fun i => decide (0 ≤ i) &&
          decide (i < (vr.references.length : Int)))).map Int.toNat := by
    intro d hd
    rw [hclaims] at hd
    obtain ⟨pr, hpr, rfl⟩ := List.mem_map.mp hd
    obtain ⟨rc, hrc, hok⟩ := mapE_ok_mem _ h2 pr hpr
    refine ⟨rc, hrc, ?_⟩
    have hidx := validateClaim_ok_indices refs.length rc pr.1 pr.2 hok
    rw [hrefs]
    exact hidx
  refine ⟨?_, hmem, ?_, ?_⟩
  · intro d hd i hi
    obtain ⟨rc, _, he⟩ := hmem d hd
    rw [he] at hi
    exact draft_indices_lt _ _ i hi
  · intro s
    exact resolveRefs_idMap_length vr.references s
  · intro pid s l hl
    have hbl := (resolveRefs_store_frame vr.references s).1
    rcases persistClaims_link_mem pid (resolveRefs vr.references s).idMap
        vr.claims (resolveRefs vr.references s).store l hl with hin | hex
    · rw [hbl] at hin
      exact Or.inl hin
    · exact Or.inr hex

/-- Witness for C7: a raw claim listing indices [0, 5, -1] against one
reference keeps only index 0, which is in range. -/
theorem link_index_validity_witness :
    (0:Nat) < (ExtractionResult.references
      ⟨[⟨("c"), .factual, none, none, [0]⟩],
        [⟨("T"), none, none, none, none, none⟩], 3⟩).length :=
  (link_index_validity
    ⟨[⟨some ("c"), some ("weird"), none, none, [0, 5, -1]⟩],
      [⟨some (" T "), none, none, none, none, none⟩]⟩
    ⟨[⟨("c"), .factual, none, none, [0]⟩],
      [⟨("T"), none, none, none, none, none⟩], 3⟩
    (by rfl)).1 ⟨("c"), .factual, none, none, [0]⟩ (by decide) 0 (by decide)

/-- C8: SchemaValidator is a pure, deterministic transform — equal raw
inputs validate to equal results (same claims, references and anomaly
counts), and validation never fails solely because of an unknown
claim_type: whenever every raw claim has non-empty text and every raw
reference a non-blank title, validation succeeds whatever the claim_type
strings are. -/
theorem schema_validator_deterministic (r1 r2 : RawResponse) (h : r1 = r2) :
    validate r1 = validate r2 ∧
    (∀ vr1 vr2, validate r1 = .ok vr1 → validate r2 = .ok vr2 →
      vr1.claims = vr2.claims ∧ vr1.references = vr2.references ∧
      vr1.anomalies = vr2.anomalies) ∧
    ((∀ c ∈ r1.claims, ∃ t, c.text = some t ∧ t ≠ "") →
      (∀ r ∈ r1.references, ∃ t, r.title = some t ∧ trimStr t ≠ "") →
      ∃ vr, validate r1 = .ok vr) := by
  subst h
  refine ⟨rfl, ?_, ?_⟩
  · intro vr1 vr2 e1 e2
    rw [e1] at e2
    injection e2 with e2
    exact ⟨by rw [e2], by rw [e2], by rw [e2]⟩
  · intro hc hr
    obtain ⟨refs, hrefs⟩ : ∃ refs, mapE validateReference r1.references = .ok refs := by
      apply mapE_ok_of_all
      intro r hrmem
      obtain ⟨t, ht, hne⟩ := hr r hrmem
      simp only [validateReference, ht]
      rw [if_neg hne]
      exact ⟨_, rfl⟩
    obtain ⟨pairs, hps⟩ : ∃ pairs,
        mapE (validateClaim refs.length) r1.claims = .ok pairs := by
      apply mapE_ok_of_all
      intro c hcmem
      obtain ⟨t, ht, hne⟩ := hc c hcmem
      simp only [validateClaim, ht]
      rw [if_neg hne]
      exact ⟨_, rfl⟩
    refine ⟨⟨pairs.map Prod.fst, refs, (pairs.map Prod.snd).sum⟩, ?_⟩
    simp only [validate, hrefs, hps]

/-- Witness for C8: a claim with the unknown type "speculative" still
validates. -/
theorem schema_validator_deterministic_witness :
    ∃ vr, validate
      ⟨[⟨some ("claim"), some ("speculative"), none, none, []⟩], []⟩ = .ok vr :=
  (schema_validator_deterministic
    ⟨[⟨some ("claim"), some ("speculative"), none, none, []⟩], []⟩
    ⟨[⟨some ("claim"), some ("speculative"), none, none, []⟩], []⟩ rfl).2.2
    (fun c hc => by
      rw [List.mem_singleton] at hc
      subst hc
      exact ⟨("claim"), rfl, by decide⟩)
    (fun r hr => absurd hr (List.not_mem_nil r))

end CRV
